import Mathlib

/-!
Verification of the got test-fixture library (loader, saver, assertion
engine and suite runner) against its specification.

The embedding models the reflective core of the library:
- file contents are strings of bytes;
- a filesystem is an association list from full paths to contents;
- a Go value is a deep datatype mirroring the decode modes the code
  distinguishes by reflection (string, byte slice, string-keyed map,
  arbitrary codec-decoded value);
- codecs are abstract marshal/unmarshal pairs keyed by file extension;
- Go map iteration order is unspecified, so a vmap carries its entries in
  one possible iteration order as a list; functions that range over a map
  consume that order.

Paths are modelled after the path/filepath functions the code calls
(Join with Clean, Glob/Match, Rel, Ext) for relative slash-separated
paths; character classes and escapes in glob patterns are not modelled
(the patterns the library documents use only the star wildcard), and a
directory is identified with the set of file paths below it.
-/

/-! ## String and path helpers (models of path/filepath on relative paths) -/

/-- True when the string has no characters (models len(s) == 0 on bytes). -/
def strEmpty (s : String) : Bool := s.data.isEmpty

/-- Split a path into slash-separated segments, as strings.Split on "/". -/
def splitSegsAux : List Char → List Char → List String
  | [], acc => [String.mk acc.reverse]
  | c :: rest, acc =>
    if c = '/' then String.mk acc.reverse :: splitSegsAux rest []
    else splitSegsAux rest (c :: acc)

def splitSegs (s : String) : List String := splitSegsAux s.data []

/-- Rejoin segments with slashes. -/
def joinSegs : List String → String
  | [] => ""
  | [s] => s
  | s :: rest => s ++ "/" ++ joinSegs rest

/-- One step of filepath.Clean over a reversed stack of kept segments:
empty and dot segments are dropped, a dotdot segment pops the previous
segment unless there is none or it is itself a dotdot. -/
def cleanPushAux (stack : List String) (seg : String) : List String :=
  if seg = "" ∨ seg = "." then stack
  else if seg = ".." then
    match stack with
    | [] => [".."]
    | top :: rest => if top = ".." then seg :: top :: rest else rest
  else seg :: stack

/-- filepath.Clean restricted to relative paths. -/
def cleanPath (s : String) : String :=
  let r := ((splitSegs s).foldl cleanPushAux []).reverse
  if r.isEmpty then "." else joinSegs r

/-- filepath.Join on two elements: join the non-empty elements with a
slash and Clean the result. -/
def joinPath (a b : String) : String :=
  if a = "" then (if b = "" then "" else cleanPath b) else cleanPath (a ++ "/" ++ b)

/-- filepath.Match within one path segment, on explicit fuel so that the
definition reduces by computation: star matches any run of characters of
the segment, a question mark matches one character. Every recursive call
shrinks pattern plus segment, so the fuel below never runs out. -/
def matchSegF : Nat → List Char → List Char → Bool
  | 0, _, _ => false
  | _ + 1, [], [] => true
  | _ + 1, [], _ :: _ => false
  | f + 1, c :: ps, [] => c = '*' && matchSegF f ps []
  | f + 1, c :: ps, n :: ns =>
    if c = '*' then matchSegF f ps (n :: ns) || matchSegF f (c :: ps) ns
    else (c = '?' || c = n) && matchSegF f ps ns

def matchSeg (p n : List Char) : Bool := matchSegF (p.length + n.length + 1) p n

/-- filepath.Match on whole paths: the star wildcard never crosses a
slash, so a pattern matches a path segmentwise. -/
def globMatch (pat name : String) : Bool :=
  let ps := splitSegs pat
  let ns := splitSegs name
  ps.length = ns.length && (List.zip ps ns).all (fun pq => matchSeg pq.1.data pq.2.data)

/-- filepath.Rel for a target that lies below the base directory: drop
the leading base segments. -/
def relPath (base target : String) : String :=
  joinSegs ((splitSegs target).drop (splitSegs base).length)

/-- filepath.Ext: the suffix from the final dot of the last segment. -/
def extFromRev : List Char → List Char → String
  | [], _ => ""
  | '/' :: _, _ => ""
  | '.' :: _, acc => String.mk ('.' :: acc)
  | c :: rest, acc => extFromRev rest (c :: acc)

def pathExt (s : String) : String := extFromRev s.data.reverse []

/-- True when a path sits below the given directory. -/
def underDir (dir p : String) : Bool := (dir ++ "/").data.isPrefixOf p.data

/-! ## Association lists: the model of directories and Go maps -/

def assocLookup {α : Type} : List (String × α) → String → Option α
  | [], _ => none
  | (k, v) :: rest, key => if k = key then some v else assocLookup rest key

def assocSet {α : Type} : List (String × α) → String → α → List (String × α)
  | [], key, v => [(key, v)]
  | (k, w) :: rest, key, v =>
    if k = key then (key, v) :: rest else (k, w) :: assocSet rest key v

def assocErase {α : Type} : List (String × α) → String → List (String × α)
  | [], _ => []
  | (k, w) :: rest, key =>
    if k = key then assocErase rest key else (k, w) :: assocErase rest key

/-- A filesystem: full path to file content. -/
abbrev FS := List (String × String)

def fsWrite (fs : FS) (file data : String) : FS := assocSet fs file data

def fsRemove (fs : FS) (file : String) : FS := assocErase fs file

/-! ## The data model of annotated structs (testdata.go, src/unnamed/part_010) -/

/-- The declared Go type of a field, as far as the reflective code
distinguishes: string, byte slice, string-keyed map, or any other type
that is decoded through a codec. -/
inductive GoType where
  | tstr : GoType
  | tbytes : GoType
  | tstructured : GoType
  | tmap : GoType → GoType
deriving DecidableEq, Repr

/-- A Go value of one of those types. A vmap lists its entries in one
possible Go map iteration order; Go specifies no order, so theorems about
order quantify over this list. A vstructured carries the abstract payload
a codec (de)serializes. -/
inductive GoVal where
  | vstr : String → GoVal
  | vbytes : String → GoVal
  | vstructured : Nat → GoVal
  | vmap : List (String × GoVal) → GoVal

/-- reflect Value.IsZero for the modelled types. A nil map and a nil byte
slice are zero; the model conflates nil with empty, which the save path
also treats identically (empty encodings are deleted, not written). -/
def GoVal.isZero : GoVal → Bool
  | .vstr s => strEmpty s
  | .vbytes b => strEmpty b
  | .vstructured n => n = 0
  | .vmap m => m.isEmpty

/-- The raw bytes of a string or byte-slice value. -/
def GoVal.rawContent : GoVal → String
  | .vstr s => s
  | .vbytes b => b
  | _ => ""

mutual
/-- Structural equality in the sense of go-cmp, pointwise over the
modelled values. Map entries are compared in the carried order; the
theorems below only compare maps whose orders align. -/
def GoVal.beq : GoVal → GoVal → Bool
  | .vstr a, .vstr b => a == b
  | .vbytes a, .vbytes b => a == b
  | .vstructured a, .vstructured b => a == b
  | .vmap a, .vmap b => goEntriesBeq a b
  | _, _ => false
def goEntriesBeq : List (String × GoVal) → List (String × GoVal) → Bool
  | [], [] => true
  | (ka, va) :: ra, (kb, vb) :: rb => ka == kb && GoVal.beq va vb && goEntriesBeq ra rb
  | _, _ => false
end

/-- The zero value of each type (reflect.New(t).Elem()). -/
def GoType.zero : GoType → GoVal
  | .tstr => .vstr ""
  | .tbytes => .vbytes ""
  | .tstructured => .vstructured 0
  | .tmap _ => .vmap []

def isMapType : GoType → Bool
  | .tmap _ => true
  | _ => false

/-- A parsed testdata struct tag: the primary name (path or glob
pattern) and the option list. -/
structure Tag where
  name : String
  options : List String
deriving DecidableEq, Repr

def Tag.hasOption (t : Tag) (o : String) : Bool := t.options.contains o

/-- A codec: marshal a value to bytes, or unmarshal bytes into a target
pre-seeded with the current value. none models a returned error. -/
structure Codec where
  marshal : GoVal → Option String
  unmarshal : String → GoVal → Option GoVal

/-- The codec registry: file extension to codec (codec.Get). -/
abbrev Registry := String → Option Codec

/-- One annotated struct field: its parsed tag (none when the field has
no testdata tag), its declared type and its current value. -/
structure GoField where
  tag : Option Tag
  type : GoType
  val : GoVal

/-- An annotated struct is its list of fields. -/
abbrev GoStruct := List GoField

def zeroField (f : GoField) : GoField := { f with val := f.type.zero }

/-- reflect.New(reflect.TypeOf(actual).Elem()): a fresh zero value of
the same struct type. -/
def zeroStruct (s : GoStruct) : GoStruct := s.map zeroField

/-- go-cmp equality of two values of one struct type. -/
def structBeq : GoStruct → GoStruct → Bool
  | [], [] => true
  | a :: ra, b :: rb => GoVal.beq a.val b.val && structBeq ra rb
  | _, _ => false

/-! ## Loader (part_010 lines 107-235)

Stateful Go code is translated to explicit state passing: a function that
mutates a field in place returns the new field value, and a failing call
returns the error together with the value the field still holds (part_010
mutates a field only at its success points). -/

/-- loadFile (part_010 lines 200-235). openTagFile suppresses the
not-found error, so a missing file leaves the value untouched; strings
and byte slices take the raw content; anything else goes through the
codec for the file extension, decoding into a copy pre-seeded with the
current value which is assigned back only on success. -/
def loadFile (reg : Registry) (fs : FS) (file : String) (ftype : GoType)
    (value : GoVal) : Except String GoVal :=
  match assocLookup fs file with
  | none => .ok value
  | some data =>
    match ftype with
    | .tbytes => .ok (.vbytes data)
    | .tstr => .ok (.vstr data)
    | _ =>
      match reg (pathExt file) with
      | none => .error ("failed to get codec for file extension " ++ pathExt file)
      | some c =>
        match c.unmarshal data value with
        | none => .error ("failed to unmarshal " ++ file)
        | some v => .ok v

/-- filepath.Glob over the modelled filesystem: the file paths matching
the pattern. Go returns them sorted; the order is irrelevant here because
the matches only ever populate a map. -/
def globMatches (fs : FS) (pat : String) : List String :=
  (fs.map Prod.fst).filter (fun p => globMatch pat p)

/-- The loop of the explode branch of loadDirInput (part_010 lines
170-184): populate a fresh map, one entry per glob match, keyed by the
path relative to the input directory, each value decoded into a fresh
zero element. -/
def loadMatches (reg : Registry) (fs : FS) (input : String) (elem : GoType) :
    List String → List (String × GoVal) → Except String (List (String × GoVal))
  | [], m => .ok m
  | file :: rest, m =>
    match loadFile reg fs file elem elem.zero with
    | .error e => .error e
    | .ok v => loadMatches reg fs input elem rest (assocSet m (relPath input file) v)

/-- loadDirInput (part_010 lines 159-198). For a string-keyed map field
with the explode option the tag name is a glob pattern: a fresh map is
built from the matches of this input directory alone and replaces the
field value whenever it is non-empty. Every other field loads the single
file join(input, tag name). -/
def loadDirInput (reg : Registry) (fs : FS) (input : String) (tag : Tag)
    (ftype : GoType) (value : GoVal) : Except String GoVal :=
  let file := joinPath input tag.name
  match ftype, tag.hasOption "explode" with
  | .tmap elem, true =>
    match loadMatches reg fs input elem (globMatches fs file) [] with
    | .error e => .error e
    | .ok m => if 0 < m.length then .ok (.vmap m) else .ok value
  | _, _ => loadFile reg fs file ftype value

/-- The inner loop of loadDir (part_010 lines 149-153): feed the field
through every input directory in order. On error the field keeps the
value it had before the failing directory was processed. -/
def loadDirInputs (reg : Registry) (fs : FS) (tag : Tag) (ftype : GoType) :
    List String → GoVal → Option String × GoVal
  | [], v => (none, v)
  | input :: rest, v =>
    match loadDirInput reg fs input tag ftype v with
    | .error e => (some e, v)
    | .ok w => loadDirInputs reg fs tag ftype rest w

/-- One field of the loadDir loop (part_010 lines 133-154): fields
without a testdata tag, or whose tag name is empty or a dash, are
skipped. -/
def loadDirField (reg : Registry) (fs : FS) (inputs : List String)
    (f : GoField) : Option String × GoField :=
  match f.tag with
  | none => (none, f)
  | some tag =>
    if tag.name = "" ∨ tag.name = "-" then (none, f)
    else
      match loadDirInputs reg fs tag f.type inputs f.val with
      | (err, v) => (err, { f with val := v })

/-- loadDir over the whole struct: fields are processed in order and the
first error aborts, leaving the remaining fields untouched. -/
def loadDirFields (reg : Registry) (fs : FS) (inputs : List String) :
    List GoField → Option String × List GoField
  | [] => (none, [])
  | f :: rest =>
    match loadDirField reg fs inputs f with
    | (some e, g) => (some e, g :: rest)
    | (none, g) =>
      match loadDirFields reg fs inputs rest with
      | (err, rest2) => (err, g :: rest2)

/-! ## Saver (part_010 lines 237-340)

The saver returns the new filesystem together with the trace of file
operations it performed, in order, and the error it stopped at, if any. -/

/-- One write or delete performed against the filesystem. -/
inductive FileOp where
  | write : String → String → FileOp
  | remove : String → FileOp
deriving DecidableEq, Repr

/-- encode (part_010 lines 324-340): a zero value encodes to no bytes,
raw types pass through, everything else is marshalled by the codec for
the file extension. -/
def encode (reg : Registry) (file : String) (ftype : GoType) (v : GoVal) :
    Except String String :=
  if v.isZero then .ok ""
  else
    match ftype with
    | .tbytes => .ok v.rawContent
    | .tstr => .ok v.rawContent
    | _ =>
      match reg (pathExt file) with
      | none => .error ("failed to get codec for file extension " ++ pathExt file)
      | some c =>
        match c.marshal v with
        | none => .error ("failed to marshal " ++ file)
        | some data => .ok data

/-- saveFile (part_010 lines 297-322): empty encodings delete the target
file, with a missing file treated as success; anything else is written
(parent directories are created, which the flat filesystem model makes
implicit). -/
def saveFile (reg : Registry) (fs : FS) (file : String) (ftype : GoType)
    (v : GoVal) : FS × List FileOp × Option String :=
  match encode reg file ftype v with
  | .error e => (fs, [], some ("failed to encode file " ++ file ++ ": " ++ e))
  | .ok data =>
    if strEmpty data then (fsRemove fs file, [.remove file], none)
    else (fsWrite fs file data, [.write file data], none)

/-- The explode loop of saveDirField (part_010 lines 274-284): iterate
the map entries in map iteration order, saving each entry at
join(dir, key). -/
def saveExplode (reg : Registry) (dir : String) (elem : GoType) :
    FS → List (String × GoVal) → FS × List FileOp × Option String
  | fs, [] => (fs, [], none)
  | fs, (k, v) :: rest =>
    match saveFile reg fs (joinPath dir k) elem v with
    | (fs2, ops, some e) => (fs2, ops, some e)
    | (fs2, ops, none) =>
      match saveExplode reg dir elem fs2 rest with
      | (fs3, ops2, err) => (fs3, ops ++ ops2, err)

/-- saveDirField (part_010 lines 272-295). -/
def saveDirField (reg : Registry) (fs : FS) (dir : String) (tag : Tag)
    (ftype : GoType) (v : GoVal) : FS × List FileOp × Option String :=
  match ftype, tag.hasOption "explode" with
  | .tmap elem, true =>
    match v with
    | .vmap entries => saveExplode reg dir elem fs entries
    | _ => (fs, [], none)
  | _, _ => saveFile reg fs (joinPath dir tag.name) ftype v

/-- The field loop of saveDir (part_010 lines 248-267): untagged fields
and empty or dash names are skipped, and the first error aborts with the
filesystem as mutated so far. -/
def saveDirFields (reg : Registry) (dir : String) :
    FS → List GoField → FS × List FileOp × Option String
  | fs, [] => (fs, [], none)
  | fs, f :: rest =>
    match f.tag with
    | none => saveDirFields reg dir fs rest
    | some tag =>
      if tag.name = "" ∨ tag.name = "-" then saveDirFields reg dir fs rest
      else
        match saveDirField reg fs dir tag f.type f.val with
        | (fs2, ops, some e) => (fs2, ops, some e)
        | (fs2, ops, none) =>
          match saveDirFields reg dir fs2 rest with
          | (fs3, ops2, err) => (fs3, ops ++ ops2, err)

/-! ## Assertion engine (part_010 lines 79-105)

assert walks the values in order. In update mode each value is saved; in
comparison mode a fresh zero value of the same type is loaded from the
directory and compared with go-cmp. The returned boolean list records the
comparison results actually performed, in order. -/

def assertLoop (reg : Registry) (upd : Bool) (dir : String) :
    FS → List GoStruct → FS × List Bool × Option String
  | fs, [] => (fs, [], none)
  | fs, actual :: rest =>
    if upd then
      match saveDirFields reg dir fs actual with
      | (fs2, _, some e) => (fs2, [], some e)
      | (fs2, _, none) => assertLoop reg upd dir fs2 rest
    else
      match loadDirFields reg fs [dir] (zeroStruct actual) with
      | (some e, _) => (fs, [], some e)
      | (none, expected) =>
        if structBeq expected actual then
          match assertLoop reg upd dir fs rest with
          | (fs2, cs, err) => (fs2, true :: cs, err)
        else (fs, [false], some "assertion mismatch")

/-- assert (part_010 lines 79-105), including the empty-batch check. -/
def assertValues (reg : Registry) (upd : Bool) (dir : String) (fs : FS)
    (values : List GoStruct) : FS × List Bool × Option String :=
  if values.isEmpty then (fs, [], some "at least 1 value required")
  else assertLoop reg upd dir fs values

/-! ## Suite runner (suite.go lines 97-189) -/

/-- TestCase as built by TestSuite.Run. -/
structure SuiteCase where
  name : String
  skip : Bool
  only : Bool
  dir : String
  sharedDir : String
deriving DecidableEq, Repr

/-- parseTestDir (suite.go lines 180-189): returns name, skip, only by
suffix convention, checking the skip suffix first. -/
def parseTestDir (input : String) : String × Bool × Bool :=
  if ".skip".data.isSuffixOf input.data then
    (String.mk (input.data.take (input.data.length - 5)), true, false)
  else if ".only".data.isSuffixOf input.data then
    (String.mk (input.data.take (input.data.length - 5)), false, true)
  else (input, false, false)

/-- The first discovery loop of Run (suite.go lines 103-117) over the
subdirectories of Dir. The Go map of test cases keyed by name is an
association list updated in place. -/
def buildDirCases (suiteDir : String) :
    List String → List (String × SuiteCase) → Bool → List (String × SuiteCase) × Bool
  | [], acc, hasOnly => (acc, hasOnly)
  | sub :: rest, acc, hasOnly =>
    match parseTestDir sub with
    | (name, skip, only) =>
      buildDirCases suiteDir rest
        (assocSet acc name ⟨name, skip, only, joinPath suiteDir sub, ""⟩)
        (hasOnly || only)

/-- The second discovery loop of Run (suite.go lines 119-140) over the
subdirectories of SharedDir: a name already present only gains its
SharedDir, otherwise a new case is synthesized whose Dir still points
under the suite Dir. -/
def buildSharedCases (suiteDir sharedRoot : String) :
    List String → List (String × SuiteCase) → Bool → List (String × SuiteCase) × Bool
  | [], acc, hasOnly => (acc, hasOnly)
  | sub :: rest, acc, hasOnly =>
    match parseTestDir sub with
    | (name, skip, only) =>
      let sharedDir := joinPath sharedRoot sub
      let acc2 :=
        match assocLookup acc name with
        | some tc => assocSet acc name { tc with sharedDir := sharedDir }
        | none =>
          assocSet acc name ⟨name, skip, only, joinPath suiteDir sub, sharedDir⟩
      buildSharedCases suiteDir sharedRoot rest acc2 (hasOnly || only)

/-- The discovered cases of one Run invocation together with the hasOnly
flag, from the subdirectory names of Dir and SharedDir. -/
def suiteCases (suiteDir sharedRoot : String) (dirSubs sharedSubs : List String) :
    List (String × SuiteCase) × Bool :=
  match buildDirCases suiteDir dirSubs [] false with
  | (acc, hasOnly) => buildSharedCases suiteDir sharedRoot sharedSubs acc hasOnly

/-- What the execution loop (suite.go lines 142-154) does with one case. -/
inductive Outcome where
  | excludedByOnly : Outcome
  | skipMarked : Outcome
  | ran : Outcome
deriving DecidableEq, Repr

def runCase (hasOnly : Bool) (tc : SuiteCase) : Outcome :=
  if hasOnly && !tc.only then .excludedByOnly
  else if tc.skip then .skipMarked
  else .ran

/-- The outcome of every discovered case of one suite run. -/
def suiteOutcomes (suiteDir sharedRoot : String) (dirSubs sharedSubs : List String) :
    List (String × Outcome) :=
  match suiteCases suiteDir sharedRoot dirSubs sharedSubs with
  | (cases, hasOnly) => cases.map (fun p => (p.1, runCase hasOnly p.2))

/-! ## Specification-side helpers and concrete instances

The definitions below are not translations of got code: they are
characterizations used to state theorems (clearly named as such), plus
concrete codecs used to instantiate the abstract registry in witnesses. -/

/-- Whether the glob pattern of an explode field matches anything under
one input directory. -/
def hasGlobMatch (fs : FS) (input pat : String) : Bool :=
  !(globMatches fs (joinPath input pat)).isEmpty

/-- Specification-side description of the map an explode load of string
elements builds from the matches of one directory. -/
def buildStrEntries (fs : FS) (input : String) :
    List String → List (String × GoVal) → List (String × GoVal)
  | [], m => m
  | file :: rest, m =>
    let v : GoVal :=
      match assocLookup fs file with
      | none => .vstr ""
      | some data => .vstr data
    buildStrEntries fs input rest (assocSet m (relPath input file) v)

def explodeMapStr (fs : FS) (input pat : String) : List (String × GoVal) :=
  buildStrEntries fs input (globMatches fs (joinPath input pat)) []

/-- The last input directory, in list order, whose glob expansion of the
pattern is non-empty. -/
def lastMatchingDir (fs : FS) (pat : String) (inputs : List String) : Option String :=
  (inputs.filter (fun i => hasGlobMatch fs i pat)).getLast?

/-- Specification-side description of the file operations saving an
explode map of raw string elements performs: one operation per entry, in
entry order, at join(dir, key). -/
def explodeOps (dir : String) (entries : List (String × GoVal)) : List FileOp :=
  entries.map (fun kv =>
    if strEmpty kv.2.rawContent then FileOp.remove (joinPath dir kv.1)
    else FileOp.write (joinPath dir kv.1) kv.2.rawContent)

/-- The file for this field is absent in the given input directory: no
glob match for an explode field, no file at join(input, name) otherwise. -/
def fieldAbsent (fs : FS) (input : String) (tag : Tag) (ftype : GoType) : Bool :=
  match ftype, tag.hasOption "explode" with
  | .tmap _, true => (globMatches fs (joinPath input tag.name)).isEmpty
  | _, _ => (assocLookup fs (joinPath input tag.name)).isNone

/-- A registry with no codecs registered. -/
def noCodecs : Registry := fun _ => none

/-- A concrete codec for witnesses: a structured payload n marshals to
n + 1 copies of one character, so the encoding of a non-zero payload is
never empty and unmarshalling inverts marshalling. -/
def unaryCodec : Codec where
  marshal v :=
    match v with
    | .vstructured n => some (String.mk (List.replicate (n + 1) 'x'))
    | _ => none
  unmarshal data _ := some (.vstructured (data.data.length - 1))

def unaryReg : Registry := fun ext => if ext = ".json" then some unaryCodec else none

/-- A codec whose unmarshal always fails, for witnesses about decode
errors. -/
def failCodec : Codec where
  marshal _ := none
  unmarshal _ _ := none

def failReg : Registry := fun ext => if ext = ".json" then some failCodec else none

/-- A codec whose unmarshal merges into the pre-seeded target: the
payload grows by the length of the data, so the decoded result depends
on the value the target already held. This models merging decoders such
as JSON object unmarshalling into a non-zero struct, where fields absent
from the data keep their previous values. -/
def mergeCodec : Codec where
  marshal v :=
    match v with
    | .vstructured n => some (String.mk (List.replicate n 'x'))
    | _ => none
  unmarshal data seed :=
    match seed with
    | .vstructured m => some (.vstructured (m + data.data.length))
    | _ => none

def mergeReg : Registry := fun ext => if ext = ".json" then some mergeCodec else none

/-- A representative annotated struct covering the four supported field
kinds: a string field, a byte-slice field, a codec-decoded field and an
explode map field, with the field contents as parameters. -/
def rtStruct (cs cb : String) (n : Nat) (ca cb2 : String) : GoStruct :=
  [⟨some ⟨"s.txt", []⟩, .tstr, .vstr cs⟩,
   ⟨some ⟨"b.bin", []⟩, .tbytes, .vbytes cb⟩,
   ⟨some ⟨"j.json", []⟩, .tstructured, .vstructured n⟩,
   ⟨some ⟨"sub/*.txt", ["explode"]⟩, .tmap .tstr,
     .vmap [("sub/a.txt", .vstr ca), ("sub/b.txt", .vstr cb2)]⟩]

/-- The filesystem produced by saving rtStruct into directory d, where
jd is the codec encoding of the structured payload. -/
def rtFS (cs cb jd ca cb2 : String) : FS :=
  [("d/s.txt", cs), ("d/b.bin", cb), ("d/j.json", jd),
   ("d/sub/a.txt", ca), ("d/sub/b.txt", cb2)]

/-! ## General lemmas about the embedding -/

mutual
theorem GoVal.beq_refl : ∀ a : GoVal, a.beq a = true
  | .vstr s => by simp [GoVal.beq]
  | .vbytes s => by simp [GoVal.beq]
  | .vstructured n => by simp [GoVal.beq]
  | .vmap l => by simpa [GoVal.beq] using goEntriesBeq_refl l
theorem goEntriesBeq_refl : ∀ l : List (String × GoVal), goEntriesBeq l l = true
  | [] => by simp [goEntriesBeq]
  | (k, v) :: r => by
    simp [goEntriesBeq]
    exact ⟨GoVal.beq_refl v, goEntriesBeq_refl r⟩
end

theorem structBeq_refl : ∀ s : GoStruct, structBeq s s = true
  | [] => by simp [structBeq]
  | f :: r => by simp [structBeq, GoVal.beq_refl, structBeq_refl r]

theorem assocLookup_erase_self {α : Type} :
    ∀ (l : List (String × α)) (k : String), assocLookup (assocErase l k) k = none := by
  intro l k
  induction l with
  | nil => simp [assocErase, assocLookup]
  | cons e rest ih =>
    obtain ⟨k1, v1⟩ := e
    by_cases h : k1 = k
    · simp [assocErase, h, ih]
    · simp [assocErase, assocLookup, h, ih]

theorem assocSet_length {α : Type} :
    ∀ (l : List (String × α)) (k : String) (v : α),
      l.length ≤ (assocSet l k v).length := by
  intro l k v
  induction l with
  | nil => simp [assocSet]
  | cons e rest ih =>
    obtain ⟨k1, v1⟩ := e
    by_cases h : k1 = k
    · simp [assocSet, h]
    · simp [assocSet, h]
      exact ih

theorem str_data_eq_nil_iff (s : String) : s.data = [] ↔ s = "" := by
  constructor
  · intro h
    cases s with
    | mk l =>
      have hl : l = [] := h
      rw [hl]
  · intro h
    rw [h]

theorem strEmpty_false (s : String) (h : s ≠ "") : strEmpty s = false := by
  have hd : ¬ s.data = [] := fun hx => h ((str_data_eq_nil_iff s).mp hx)
  simp [strEmpty, List.isEmpty_iff, hd]

theorem buildStrEntries_length (fs : FS) (input : String) :
    ∀ (ms : List String) (m : List (String × GoVal)),
      m.length ≤ (buildStrEntries fs input ms m).length := by
  intro ms
  induction ms with
  | nil => intro m; simp [buildStrEntries]
  | cons f rest ih =>
    intro m
    calc m.length ≤ (assocSet m (relPath input f)
        (match assocLookup fs f with
         | none => GoVal.vstr ""
         | some data => GoVal.vstr data)).length := assocSet_length _ _ _
      _ ≤ _ := by simpa [buildStrEntries] using ih _

/-! ## Lemmas about loading single files and single fields -/

theorem loadFile_absent (reg : Registry) (fs : FS) (file : String) (ftype : GoType)
    (v : GoVal) (h : assocLookup fs file = none) : loadFile reg fs file ftype v = .ok v := by
  unfold loadFile
  rw [h]

theorem loadMatches_tstr (reg : Registry) (fs : FS) (input : String) :
    ∀ (ms : List String) (m : List (String × GoVal)),
      loadMatches reg fs input .tstr ms m = .ok (buildStrEntries fs input ms m) := by
  intro ms
  induction ms with
  | nil => intro m; simp [loadMatches, buildStrEntries]
  | cons f rest ih =>
    intro m
    cases h : assocLookup fs f with
    | none => simp [loadMatches, loadFile, h, GoType.zero, buildStrEntries, ih]
    | some data => simp [loadMatches, loadFile, h, buildStrEntries, ih]

theorem loadDirInput_explode_tstr (reg : Registry) (fs : FS) (i pat : String) (v : GoVal) :
    loadDirInput reg fs i ⟨pat, ["explode"]⟩ (.tmap .tstr) v =
      .ok (if hasGlobMatch fs i pat then .vmap (explodeMapStr fs i pat) else v) := by
  unfold loadDirInput
  have hopt : Tag.hasOption ⟨pat, ["explode"]⟩ "explode" = true := rfl
  rw [hopt]
  simp only [loadMatches_tstr]
  cases h : globMatches fs (joinPath i pat) with
  | nil => simp [hasGlobMatch, h, explodeMapStr, buildStrEntries]
  | cons a as =>
    have hlen : 0 < (buildStrEntries fs i (a :: as) []).length := by
      have h1 := buildStrEntries_length fs i as
        (assocSet [] (relPath i a)
          (match assocLookup fs a with
           | none => GoVal.vstr ""
           | some data => GoVal.vstr data))
      simp [assocSet] at h1
      simpa [buildStrEntries] using Nat.lt_of_lt_of_le (by norm_num) h1
    simp [hasGlobMatch, h, explodeMapStr, hlen]

theorem loadDirInput_nonexplode (reg : Registry) (fs : FS) (i : String) (tag : Tag)
    (ftype : GoType) (v : GoVal)
    (hne : (isMapType ftype && tag.hasOption "explode") = false) :
    loadDirInput reg fs i tag ftype v = loadFile reg fs (joinPath i tag.name) ftype v := by
  cases ftype <;> cases ho : tag.hasOption "explode" <;>
    simp_all [loadDirInput, isMapType]

theorem loadDirInput_absent (reg : Registry) (fs : FS) (i : String) (tag : Tag)
    (ftype : GoType) (v : GoVal) (h : fieldAbsent fs i tag ftype = true) :
    loadDirInput reg fs i tag ftype v = .ok v := by
  cases ftype with
  | tmap elem =>
    cases ho : tag.hasOption "explode" with
    | true =>
      unfold fieldAbsent at h
      rw [ho] at h
      simp only [List.isEmpty_iff] at h
      unfold loadDirInput
      rw [ho]
      simp [h, loadMatches]
    | false =>
      unfold fieldAbsent at h
      rw [ho] at h
      simp only [Option.isNone_iff_eq_none] at h
      rw [loadDirInput_nonexplode reg fs i tag _ v (by simp [isMapType, ho])]
      exact loadFile_absent reg fs _ _ v h
  | tstr =>
    unfold fieldAbsent at h
    simp only [Option.isNone_iff_eq_none] at h
    rw [loadDirInput_nonexplode reg fs i tag _ v (by simp [isMapType])]
    exact loadFile_absent reg fs _ _ v h
  | tbytes =>
    unfold fieldAbsent at h
    simp only [Option.isNone_iff_eq_none] at h
    rw [loadDirInput_nonexplode reg fs i tag _ v (by simp [isMapType])]
    exact loadFile_absent reg fs _ _ v h
  | tstructured =>
    unfold fieldAbsent at h
    simp only [Option.isNone_iff_eq_none] at h
    rw [loadDirInput_nonexplode reg fs i tag _ v (by simp [isMapType])]
    exact loadFile_absent reg fs _ _ v h

theorem loadFile_decode_error (reg : Registry) (fs : FS) (file : String) (ftype : GoType)
    (v : GoVal) (c : Codec) (data : String)
    (hstr : ftype ≠ .tstr) (hbytes : ftype ≠ .tbytes)
    (hf : assocLookup fs file = some data)
    (hreg : reg (pathExt file) = some c)
    (hu : c.unmarshal data v = none) :
    loadFile reg fs file ftype v = .error ("failed to unmarshal " ++ file) := by
  unfold loadFile
  rw [hf]
  cases ftype with
  | tstr => exact absurd rfl hstr
  | tbytes => exact absurd rfl hbytes
  | tstructured => simp [hreg, hu]
  | tmap e => simp [hreg, hu]

/-! ## Lemmas about saving single files -/

theorem saveFile_tstr_ops (reg : Registry) (fs : FS) (file : String) (v : GoVal) :
    saveFile reg fs file .tstr v =
      (if strEmpty v.rawContent then fsRemove fs file else fsWrite fs file v.rawContent,
       [if strEmpty v.rawContent then FileOp.remove file else FileOp.write file v.rawContent],
       none) := by
  have hnil : ("" : String).data = [] := rfl
  cases v with
  | vstr s =>
    by_cases h : s.data = [] <;>
      simp [saveFile, encode, GoVal.isZero, GoVal.rawContent, strEmpty, h, hnil]
  | vbytes b =>
    by_cases h : b.data = [] <;>
      simp [saveFile, encode, GoVal.isZero, GoVal.rawContent, strEmpty, h, hnil]
  | vstructured n =>
    by_cases h : n = 0 <;>
      simp [saveFile, encode, GoVal.isZero, GoVal.rawContent, strEmpty, h, hnil]
  | vmap m =>
    cases m <;>
      simp [saveFile, encode, GoVal.isZero, GoVal.rawContent, strEmpty, hnil]

theorem saveFile_tbytes_ops (reg : Registry) (fs : FS) (file : String) (v : GoVal) :
    saveFile reg fs file .tbytes v =
      (if strEmpty v.rawContent then fsRemove fs file else fsWrite fs file v.rawContent,
       [if strEmpty v.rawContent then FileOp.remove file else FileOp.write file v.rawContent],
       none) := by
  have hnil : ("" : String).data = [] := rfl
  cases v with
  | vstr s =>
    by_cases h : s.data = [] <;>
      simp [saveFile, encode, GoVal.isZero, GoVal.rawContent, strEmpty, h, hnil]
  | vbytes b =>
    by_cases h : b.data = [] <;>
      simp [saveFile, encode, GoVal.isZero, GoVal.rawContent, strEmpty, h, hnil]
  | vstructured m =>
    by_cases h : m = 0 <;>
      simp [saveFile, encode, GoVal.isZero, GoVal.rawContent, strEmpty, h, hnil]
  | vmap m =>
    cases m <;>
      simp [saveFile, encode, GoVal.isZero, GoVal.rawContent, strEmpty, hnil]

theorem saveFile_zero (reg : Registry) (fs : FS) (file : String) (ftype : GoType)
    (v : GoVal) (hz : v.isZero = true) :
    saveFile reg fs file ftype v = (fsRemove fs file, [.remove file], none) := by
  have hnil : ("" : String).data = [] := rfl
  simp [saveFile, encode, hz, strEmpty, hnil]

theorem saveDirField_nonexplode (reg : Registry) (fs : FS) (dir : String) (tag : Tag)
    (ftype : GoType) (v : GoVal)
    (hne : (isMapType ftype && tag.hasOption "explode") = false) :
    saveDirField reg fs dir tag ftype v = saveFile reg fs (joinPath dir tag.name) ftype v := by
  cases ftype <;> cases ho : tag.hasOption "explode" <;>
    simp_all [saveDirField, isMapType]

theorem saveExplode_tstr_spec (reg : Registry) (dir : String) :
    ∀ (entries : List (String × GoVal)) (fs : FS),
      (saveExplode reg dir .tstr fs entries).2 = (explodeOps dir entries, none) := by
  intro entries
  induction entries with
  | nil => intro fs; simp [saveExplode, explodeOps]
  | cons e rest ih =>
    intro fs
    obtain ⟨k, v⟩ := e
    by_cases h : strEmpty v.rawContent = true <;>
      simp [saveExplode, saveFile_tstr_ops, h, explodeOps, ih]

theorem buildDirCases_hasOnly (suiteDir : String) :
    ∀ (subs : List String) (acc : List (String × SuiteCase)) (h0 : Bool),
      (buildDirCases suiteDir subs acc h0).2 =
        (h0 || subs.any (fun d => (parseTestDir d).2.2)) := by
  intro subs
  induction subs with
  | nil => intro acc h0; simp [buildDirCases]
  | cons sub rest ih =>
    intro acc h0
    rcases hp : parseTestDir sub with ⟨name, rest2⟩
    obtain ⟨skip, only⟩ := rest2
    simp [buildDirCases, hp, ih, List.any_cons, Bool.or_assoc]

theorem buildSharedCases_hasOnly (suiteDir sharedRoot : String) :
    ∀ (subs : List String) (acc : List (String × SuiteCase)) (h0 : Bool),
      (buildSharedCases suiteDir sharedRoot subs acc h0).2 =
        (h0 || subs.any (fun d => (parseTestDir d).2.2)) := by
  intro subs
  induction subs with
  | nil => intro acc h0; simp [buildSharedCases]
  | cons sub rest ih =>
    intro acc h0
    rcases hp : parseTestDir sub with ⟨name, rest2⟩
    obtain ⟨skip, only⟩ := rest2
    simp [buildSharedCases, hp, ih, List.any_cons, Bool.or_assoc]

/-! ## Claim C1: explode loading across multiple directories -/

/-- C1 (amended): for an explode map field of string elements, LoadDirs
sets the field to the glob expansion of the last directory in the list
that has at least one match; a directory with no matches leaves the field
unchanged, and the matches of earlier directories are discarded rather
than unioned. -/
theorem explode_load_last_dir_replaces_C1 (reg : Registry) (fs : FS) (pat : String)
    (inputs : List String) (v : GoVal) :
    loadDirInputs reg fs ⟨pat, ["explode"]⟩ (.tmap .tstr) inputs v =
      (none,
        match lastMatchingDir fs pat inputs with
        | none => v
        | some d => .vmap (explodeMapStr fs d pat)) := by
  induction inputs generalizing v with
  | nil => simp [loadDirInputs, lastMatchingDir]
  | cons i rest ih =>
    rw [loadDirInputs, loadDirInput_explode_tstr]
    by_cases hP : hasGlobMatch fs i pat = true
    · simp only [hP, if_true]
      rw [ih]
      cases hJ : (rest.filter (fun j => hasGlobMatch fs j pat)).getLast? with
      | none =>
        have hfil : (rest.filter (fun j => hasGlobMatch fs j pat)) = [] := by
          cases hc : rest.filter (fun j => hasGlobMatch fs j pat) with
          | nil => rfl
          | cons x xs => rw [hc] at hJ; simp [List.getLast?] at hJ
        simp [lastMatchingDir, hJ, List.filter_cons, hP, hfil]
      | some d =>
        have hfil : (rest.filter (fun j => hasGlobMatch fs j pat)) ≠ [] := by
          intro hc; rw [hc] at hJ; simp at hJ
        obtain ⟨x, xs, hc⟩ := List.exists_cons_of_ne_nil hfil
        rw [hc] at hJ
        simp [lastMatchingDir, List.filter_cons, hP, hc, List.getLast?_cons_cons, hJ]
    · simp only [hP]
      rw [ih]
      simp [lastMatchingDir, List.filter_cons, hP]

/-- C1 counterexample: loading directories A and B, where A contains
x.txt with content 1 and B contains y.txt with content 2, with pattern
star-dot-txt yields only the map of B; the key x.txt claimed by the spec
is absent from the result. -/
theorem explode_load_no_union_C1 :
    loadDirInputs (fun _ => none) [("A/x.txt", "1"), ("B/y.txt", "2")]
        ⟨"*.txt", ["explode"]⟩ (.tmap .tstr) ["A", "B"] (.vmap []) =
      (none, .vmap [("y.txt", .vstr "2")]) ∧
    assocLookup [("y.txt", GoVal.vstr "2")] "x.txt" = none :=
  ⟨by rfl, by rfl⟩

/-! ## Claim C2: save and load round trip -/

/-- C2 (amended): for the representative struct with all four supported
field kinds, all fields non-zero, explode keys matching the pattern, an
initially empty directory, and a codec that inverts its own encoding of
the structured payload, Save followed by Load of a fresh zero value
restores the struct exactly; equivalently Assert in update mode persists
it and Assert in comparison mode immediately after reports no mismatch. -/
theorem save_load_round_trip_C2 (reg : Registry) (c : Codec)
    (cs cb ca cb2 jd : String) (n : Nat)
    (hreg : reg ".json" = some c)
    (hcs : cs ≠ "") (hcb : cb ≠ "") (hca : ca ≠ "") (hcb2 : cb2 ≠ "") (hn : n ≠ 0)
    (hm : c.marshal (.vstructured n) = some jd) (hjd : jd ≠ "")
    (hu : c.unmarshal jd (.vstructured 0) = some (.vstructured n)) :
    saveDirFields reg "d" [] (rtStruct cs cb n ca cb2) =
      (rtFS cs cb jd ca cb2,
       [.write "d/s.txt" cs, .write "d/b.bin" cb, .write "d/j.json" jd,
        .write "d/sub/a.txt" ca, .write "d/sub/b.txt" cb2], none) ∧
    loadDirFields reg (rtFS cs cb jd ca cb2) ["d"] (zeroStruct (rtStruct cs cb n ca cb2)) =
      (none, rtStruct cs cb n ca cb2) ∧
    assertLoop reg true "d" [] [rtStruct cs cb n ca cb2] =
      (rtFS cs cb jd ca cb2, [], none) ∧
    assertLoop reg false "d" (rtFS cs cb jd ca cb2) [rtStruct cs cb n ca cb2] =
      (rtFS cs cb jd ca cb2, [true], none) := by
  have hcsE := strEmpty_false cs hcs
  have hcbE := strEmpty_false cb hcb
  have hcaE := strEmpty_false ca hca
  have hcb2E := strEmpty_false cb2 hcb2
  have hjdE := strEmpty_false jd hjd
  have hex : pathExt "d/j.json" = ".json" := rfl
  have g1 : globMatch "d/sub/*.txt" "d/s.txt" = false := rfl
  have g2 : globMatch "d/sub/*.txt" "d/b.bin" = false := rfl
  have g3 : globMatch "d/sub/*.txt" "d/j.json" = false := rfl
  have g4 : globMatch "d/sub/*.txt" "d/sub/a.txt" = true := rfl
  have g5 : globMatch "d/sub/*.txt" "d/sub/b.txt" = true := rfl
  have hj1 : joinPath "d" "s.txt" = "d/s.txt" := rfl
  have hj2 : joinPath "d" "b.bin" = "d/b.bin" := rfl
  have hj3 : joinPath "d" "j.json" = "d/j.json" := rfl
  have hj4 : joinPath "d" "sub/a.txt" = "d/sub/a.txt" := rfl
  have hj5 : joinPath "d" "sub/b.txt" = "d/sub/b.txt" := rfl
  have hjg : joinPath "d" "sub/*.txt" = "d/sub/*.txt" := rfl
  have hrp1 : relPath "d" "d/sub/a.txt" = "sub/a.txt" := rfl
  have hrp2 : relPath "d" "d/sub/b.txt" = "sub/b.txt" := rfl
  have hregx : reg (pathExt "d/j.json") = some c := by rw [hex]; exact hreg
  have hsf3 : ∀ fs : FS, saveFile reg fs "d/j.json" .tstructured (.vstructured n) =
      (fsWrite fs "d/j.json" jd, [.write "d/j.json" jd], none) := by
    intro fs
    simp [saveFile, encode, GoVal.isZero, hn, hregx, hm, hjdE]
  have h1 : saveDirFields reg "d" [] (rtStruct cs cb n ca cb2) =
      (rtFS cs cb jd ca cb2,
       [.write "d/s.txt" cs, .write "d/b.bin" cb, .write "d/j.json" jd,
        .write "d/sub/a.txt" ca, .write "d/sub/b.txt" cb2], none) := by
    simp [rtStruct, rtFS, saveDirFields, saveDirField, saveExplode,
      saveFile_tstr_ops, saveFile_tbytes_ops, hsf3, GoVal.rawContent,
      hcsE, hcbE, hcaE, hcb2E, hj1, hj2, hj3, hj4, hj5,
      fsWrite, assocSet, Tag.hasOption]
  have h2 : loadDirFields reg (rtFS cs cb jd ca cb2) ["d"]
      (zeroStruct (rtStruct cs cb n ca cb2)) = (none, rtStruct cs cb n ca cb2) := by
    simp [rtStruct, rtFS, zeroStruct, zeroField, GoType.zero, loadDirFields,
      loadDirField, loadDirInputs, loadDirInput, loadMatches, loadFile,
      assocLookup, hex, hreg, hu, globMatches, g1, g2, g3, g4, g5,
      hj1, hj2, hj3, hjg, hrp1, hrp2, assocSet, Tag.hasOption]
  refine ⟨h1, h2, ?_, ?_⟩
  · simp [assertLoop, h1]
  · simp [assertLoop, h2, structBeq_refl]

/-- C2 witness -/
theorem save_load_round_trip_witness_C2 :
    saveDirFields unaryReg "d" [] (rtStruct "hello" "bin" 2 "A" "B") =
      (rtFS "hello" "bin" "xxx" "A" "B",
       [.write "d/s.txt" "hello", .write "d/b.bin" "bin", .write "d/j.json" "xxx",
        .write "d/sub/a.txt" "A", .write "d/sub/b.txt" "B"], none) ∧
    loadDirFields unaryReg (rtFS "hello" "bin" "xxx" "A" "B") ["d"]
        (zeroStruct (rtStruct "hello" "bin" 2 "A" "B")) =
      (none, rtStruct "hello" "bin" 2 "A" "B") ∧
    assertLoop unaryReg true "d" [] [rtStruct "hello" "bin" 2 "A" "B"] =
      (rtFS "hello" "bin" "xxx" "A" "B", [], none) ∧
    assertLoop unaryReg false "d" (rtFS "hello" "bin" "xxx" "A" "B")
        [rtStruct "hello" "bin" 2 "A" "B"] =
      (rtFS "hello" "bin" "xxx" "A" "B", [true], none) :=
  save_load_round_trip_C2 unaryReg unaryCodec "hello" "bin" "A" "B" "xxx" 2
    (by rfl) (by decide) (by decide) (by decide) (by decide) (by decide)
    (by rfl) (by decide) (by rfl)

/-- C2 counterexample: a struct whose only field is a non-zero explode
map with a key that does not match the glob pattern of its tag; saving
writes the file, but reloading a fresh zero value finds no glob match and
leaves the map nil, so the round trip fails. -/
theorem round_trip_fails_nonmatching_key_C2 :
    (GoVal.vmap [("a.bin", .vstr "x")]).isZero = false ∧
    saveDirFields noCodecs "d" []
        [⟨some ⟨"*.txt", ["explode"]⟩, .tmap .tstr, .vmap [("a.bin", .vstr "x")]⟩] =
      ([("d/a.bin", "x")], [.write "d/a.bin" "x"], none) ∧
    loadDirFields noCodecs [("d/a.bin", "x")] ["d"]
        (zeroStruct [⟨some ⟨"*.txt", ["explode"]⟩, .tmap .tstr, .vmap [("a.bin", .vstr "x")]⟩]) =
      (none, [⟨some ⟨"*.txt", ["explode"]⟩, .tmap .tstr, .vmap []⟩]) ∧
    structBeq [⟨some ⟨"*.txt", ["explode"]⟩, .tmap .tstr, .vmap []⟩]
        [⟨some ⟨"*.txt", ["explode"]⟩, .tmap .tstr, .vmap [("a.bin", .vstr "x")]⟩] = false :=
  ⟨by rfl, by rfl, by rfl, by rfl⟩

/-! ## Claim C3: order of explode writes -/

/-- C3 (amended): saving an explode map of string elements performs one
file operation per entry, at join(dir, key), in the iteration order of
the map value, which Go leaves unspecified; the sequence is not sorted by
key unless the iteration order happens to be. -/
theorem save_explode_entry_order_C3 (reg : Registry) (dir pat : String)
    (entries : List (String × GoVal)) (fs : FS) :
    (saveDirField reg fs dir ⟨pat, ["explode"]⟩ (.tmap .tstr) (.vmap entries)).2 =
      (explodeOps dir entries, none) := by
  have hopt : Tag.hasOption ⟨pat, ["explode"]⟩ "explode" = true := rfl
  unfold saveDirField
  rw [hopt]
  exact saveExplode_tstr_spec reg dir entries fs

/-- C3 counterexample: an explode map whose iteration order lists key
b.txt before a.txt is written in exactly that order, which differs from
the sorted-by-key sequence the claim demands. -/
theorem save_explode_unsorted_C3 :
    (saveDirField noCodecs [] "d" ⟨"*.txt", ["explode"]⟩ (.tmap .tstr)
        (.vmap [("b.txt", .vstr "1"), ("a.txt", .vstr "2")])).2.1 =
      [.write "d/b.txt" "1", .write "d/a.txt" "2"] ∧
    [FileOp.write "d/b.txt" "1", .write "d/a.txt" "2"] ≠
      [.write "d/a.txt" "2", .write "d/b.txt" "1"] :=
  ⟨by rfl, by decide⟩

/-! ## Claim C4: assert batch behaviour on comparison failure -/

/-- C4 (amended): with the update flag false, a comparison failure on one
value makes assert return immediately with the diff error; the remaining
values of the batch are not loaded or compared (the result does not
depend on them). -/
theorem assert_stops_at_first_failure_C4 (reg : Registry) (dir : String) (fs : FS)
    (actual : GoStruct) (rest : List GoStruct) (expected : GoStruct)
    (hload : loadDirFields reg fs [dir] (zeroStruct actual) = (none, expected))
    (hne : structBeq expected actual = false) :
    assertLoop reg false dir fs (actual :: rest) = (fs, [false], some "assertion mismatch") := by
  simp [assertLoop, hload, hne]

/-- C4 witness -/
theorem assert_stops_witness_C4 :
    assertLoop noCodecs false "t" [("t/a.txt", "X")]
        [[⟨some ⟨"a.txt", []⟩, .tstr, .vstr "Y"⟩], [⟨some ⟨"a.txt", []⟩, .tstr, .vstr "X"⟩]] =
      ([("t/a.txt", "X")], [false], some "assertion mismatch") :=
  assert_stops_at_first_failure_C4 noCodecs "t" [("t/a.txt", "X")]
    [⟨some ⟨"a.txt", []⟩, .tstr, .vstr "Y"⟩]
    [[⟨some ⟨"a.txt", []⟩, .tstr, .vstr "X"⟩]]
    [⟨some ⟨"a.txt", []⟩, .tstr, .vstr "X"⟩] (by rfl) (by rfl)

/-- C4 counterexample: a batch of two values whose first comparison
fails performs exactly one comparison; the second value, which would
have matched, is never checked. -/
theorem assert_first_mismatch_stops_batch_C4 :
    assertValues noCodecs false "t" [("t/a.txt", "X")]
        [[⟨some ⟨"a.txt", []⟩, .tstr, .vstr "Y"⟩], [⟨some ⟨"a.txt", []⟩, .tstr, .vstr "X"⟩]] =
      ([("t/a.txt", "X")], [false], some "assertion mismatch") ∧
    (assertValues noCodecs false "t" [("t/a.txt", "X")]
        [[⟨some ⟨"a.txt", []⟩, .tstr, .vstr "Y"⟩],
         [⟨some ⟨"a.txt", []⟩, .tstr, .vstr "X"⟩]]).2.1.length = 1 :=
  ⟨by rfl, by rfl⟩

/-! ## Claim C5: last directory wins for non-explode fields -/

/-- C5 (amended): when directories A then B both contain the tagged
file, a raw string or byte-slice field ends up holding B's content
exactly (the last directory wins outright), while a codec-structured
field decodes B's file last, but into a value pre-seeded with the result
of decoding A's file: the final value is B's decode applied to A's
result, so under a merging codec data from A can survive in the field. -/
theorem load_last_dir_wins_C5 (reg : Registry) (fs : FS) (A B : String) (tag : Tag)
    (v w u : GoVal) (a b : String) (cA cB : Codec) (wA wB : GoVal)
    (hA : assocLookup fs (joinPath A tag.name) = some a)
    (hB : assocLookup fs (joinPath B tag.name) = some b)
    (hregA : reg (pathExt (joinPath A tag.name)) = some cA)
    (hregB : reg (pathExt (joinPath B tag.name)) = some cB)
    (huA : cA.unmarshal a u = some wA)
    (huB : cB.unmarshal b wA = some wB) :
    loadDirInputs reg fs tag .tstr [A, B] v = (none, .vstr b) ∧
    loadDirInputs reg fs tag .tbytes [A, B] w = (none, .vbytes b) ∧
    loadDirInputs reg fs tag .tstructured [A, B] u = (none, wB) := by
  refine ⟨?_, ?_, ?_⟩ <;>
    simp [loadDirInputs, loadDirInput, loadFile, hA, hB, hregA, hregB, huA, huB]

/-- C5 witness -/
theorem load_last_dir_wins_witness_C5 :
    loadDirInputs mergeReg [("A/f.json", "xx"), ("B/f.json", "x")] ⟨"f.json", []⟩
        .tstr ["A", "B"] (.vstr "") = (none, .vstr "x") ∧
    loadDirInputs mergeReg [("A/f.json", "xx"), ("B/f.json", "x")] ⟨"f.json", []⟩
        .tbytes ["A", "B"] (.vbytes "") = (none, .vbytes "x") ∧
    loadDirInputs mergeReg [("A/f.json", "xx"), ("B/f.json", "x")] ⟨"f.json", []⟩
        .tstructured ["A", "B"] (.vstructured 0) = (none, .vstructured 3) :=
  load_last_dir_wins_C5 mergeReg [("A/f.json", "xx"), ("B/f.json", "x")] "A" "B"
    ⟨"f.json", []⟩ (.vstr "") (.vbytes "") (.vstructured 0) "xx" "x"
    mergeCodec mergeCodec (.vstructured 2) (.vstructured 3)
    (by rfl) (by rfl) (by rfl) (by rfl) (by rfl) (by rfl)

/-- C5 counterexample: a structured field loaded from directories A and
B, both containing the tagged file, under a merging codec: the result of
loading both directories differs from the result of loading B alone, so
the field does not reflect B's file content only; data decoded from A
survives the decode of B's file. -/
theorem load_structured_keeps_A_data_C5 :
    loadDirInputs mergeReg [("A/state.json", "xx"), ("B/state.json", "x")]
        ⟨"state.json", []⟩ .tstructured ["A", "B"] (.vstructured 0) =
      (none, .vstructured 3) ∧
    loadDirInputs mergeReg [("A/state.json", "xx"), ("B/state.json", "x")]
        ⟨"state.json", []⟩ .tstructured ["B"] (.vstructured 0) =
      (none, .vstructured 1) ∧
    GoVal.vstructured 3 ≠ .vstructured 1 :=
  ⟨by rfl, by rfl, by simp⟩

/-! ## Claim C6: missing files are never an error -/

/-- C6: when the file of an annotated field is absent in every given
directory (no file at the joined path, or no glob match for an explode
field), loading returns without error and the field keeps the value the
caller supplied, whatever options the tag carries. -/
theorem load_missing_keeps_value_C6 (reg : Registry) (fs : FS) (tag : Tag) (ftype : GoType) :
    ∀ (inputs : List String) (v : GoVal),
      (∀ i ∈ inputs, fieldAbsent fs i tag ftype = true) →
      loadDirInputs reg fs tag ftype inputs v = (none, v) := by
  intro inputs
  induction inputs with
  | nil => intro v _; simp [loadDirInputs]
  | cons i rest ih =>
    intro v h
    have h1 := loadDirInput_absent reg fs i tag ftype v (h i (by simp))
    simp only [loadDirInputs, h1]
    exact ih v (fun j hj => h j (by simp [hj]))

/-- C6 witness -/
theorem load_missing_witness_C6 :
    loadDirInputs noCodecs [("A/other.txt", "zzz")] ⟨"a.txt", ["optional"]⟩ .tstr
      ["A", "B"] (.vstr "init") = (none, .vstr "init") :=
  load_missing_keeps_value_C6 noCodecs [("A/other.txt", "zzz")] ⟨"a.txt", ["optional"]⟩
    .tstr ["A", "B"] (.vstr "init") (by decide)

/-! ## Claim C7: zero values delete their file on save -/

/-- C7 (amended): for a non-explode annotated field whose value is the
zero value of its type, Save deletes the target file, treating a missing
file as success, and a subsequent load of a fresh zero value finds no
file and yields the zero value again. -/
theorem save_zero_deletes_C7 (reg : Registry) (fs : FS) (dir : String) (tag : Tag)
    (ftype : GoType) (v : GoVal)
    (hne : (isMapType ftype && tag.hasOption "explode") = false)
    (hz : v.isZero = true) :
    saveDirField reg fs dir tag ftype v =
      (fsRemove fs (joinPath dir tag.name), [.remove (joinPath dir tag.name)], none) ∧
    loadDirInputs reg (fsRemove fs (joinPath dir tag.name)) tag ftype [dir] ftype.zero =
      (none, ftype.zero) := by
  constructor
  · rw [saveDirField_nonexplode reg fs dir tag ftype v hne]
    exact saveFile_zero reg fs _ ftype v hz
  · have h1 : loadDirInput reg (fsRemove fs (joinPath dir tag.name)) dir tag ftype
        ftype.zero = .ok ftype.zero := by
      rw [loadDirInput_nonexplode reg _ dir tag ftype _ hne]
      exact loadFile_absent reg _ _ ftype _ (assocLookup_erase_self fs (joinPath dir tag.name))
    simp only [loadDirInputs, h1]

/-- C7 witness -/
theorem save_zero_deletes_witness_C7 :
    saveDirField noCodecs [("g/out.txt", "old")] "g" ⟨"out.txt", []⟩ .tstr (.vstr "") =
      ([], [.remove "g/out.txt"], none) ∧
    loadDirInputs noCodecs [] ⟨"out.txt", []⟩ .tstr ["g"] (.vstr "") = (none, .vstr "") :=
  save_zero_deletes_C7 noCodecs [("g/out.txt", "old")] "g" ⟨"out.txt", []⟩ .tstr
    (.vstr "") (by rfl) (by rfl)

/-- C7 counterexample: an explode field whose value is the zero (nil)
map deletes nothing on save, so a stale matching file survives and a
subsequent load yields a non-zero map instead of the zero value. -/
theorem save_zero_explode_no_delete_C7 :
    (GoVal.vmap []).isZero = true ∧
    saveDirField noCodecs [("g/x.txt", "old")] "g" ⟨"*.txt", ["explode"]⟩ (.tmap .tstr)
        (.vmap []) = ([("g/x.txt", "old")], [], none) ∧
    loadDirInputs noCodecs [("g/x.txt", "old")] ⟨"*.txt", ["explode"]⟩ (.tmap .tstr) ["g"]
        ((GoType.tmap .tstr).zero) = (none, .vmap [("x.txt", .vstr "old")]) ∧
    GoVal.vmap [("x.txt", .vstr "old")] ≠ (GoType.tmap .tstr).zero :=
  ⟨by rfl, by rfl, by rfl, by simp [GoType.zero]⟩

/-! ## Claim C8: suite only and skip precedence -/

/-- C8: the hasOnly flag of a suite run is set exactly when some
discovered subdirectory parses with the only suffix; when it is set,
every case without only is marked skipped as excluded and only cases
with only run; when it is not set, a case runs unless its skip flag
marks it skipped. -/
theorem suite_only_skip_precedence_C8 (suiteDir sharedRoot : String)
    (dirSubs sharedSubs : List String) :
    (suiteCases suiteDir sharedRoot dirSubs sharedSubs).2 =
      (dirSubs ++ sharedSubs).any (fun d => (parseTestDir d).2.2) ∧
    ((suiteCases suiteDir sharedRoot dirSubs sharedSubs).2 = true →
      ∀ p ∈ (suiteCases suiteDir sharedRoot dirSubs sharedSubs).1,
        (p.2.only = false →
          runCase (suiteCases suiteDir sharedRoot dirSubs sharedSubs).2 p.2 =
            .excludedByOnly) ∧
        (runCase (suiteCases suiteDir sharedRoot dirSubs sharedSubs).2 p.2 = .ran →
          p.2.only = true)) ∧
    ((suiteCases suiteDir sharedRoot dirSubs sharedSubs).2 = false →
      ∀ p ∈ (suiteCases suiteDir sharedRoot dirSubs sharedSubs).1,
        runCase (suiteCases suiteDir sharedRoot dirSubs sharedSubs).2 p.2 =
          (if p.2.skip then .skipMarked else .ran)) := by
  refine ⟨?_, ?_, ?_⟩
  · rcases h1 : buildDirCases suiteDir dirSubs [] false with ⟨acc1, only1⟩
    have h2 := buildDirCases_hasOnly suiteDir dirSubs [] false
    rw [h1] at h2
    simp only [suiteCases, h1]
    rw [buildSharedCases_hasOnly]
    simp only at h2
    simp [h2, List.any_append]
  · intro h p _
    constructor
    · intro honly
      simp [runCase, h, honly]
    · intro hran
      by_contra hc
      simp only [Bool.not_eq_true] at hc
      simp [runCase, h, hc] at hran
  · intro h p _
    cases hs : p.2.skip <;> simp [runCase, h, hs]

/-- C8 witness -/
theorem suite_only_skip_witness_C8 :
    runCase (suiteCases "root" "" ["case.only", "case2"] []).2
        ⟨"case2", false, false, "root/case2", ""⟩ = .excludedByOnly := by
  have h := suite_only_skip_precedence_C8 "root" "" ["case.only", "case2"] []
  exact (h.2.1 (by rfl) ("case2", ⟨"case2", false, false, "root/case2", ""⟩)
    (by decide)).1 (by rfl)

/-! ## Claim C9: a decode failure leaves the field untouched -/

/-- C9: for a codec-decoded field, when the file is present but the
codec unmarshal of its data into a copy pre-seeded with the current
value fails, the load of this field reports the unmarshal error and the
field still holds exactly the value it had before the file was read. -/
theorem load_decode_failure_keeps_value_C9 (reg : Registry) (fs : FS) (i : String)
    (tag : Tag) (ftype : GoType) (v : GoVal) (c : Codec) (data : String) (rest : List String)
    (hne : (isMapType ftype && tag.hasOption "explode") = false)
    (hstr : ftype ≠ .tstr) (hbytes : ftype ≠ .tbytes)
    (hf : assocLookup fs (joinPath i tag.name) = some data)
    (hreg : reg (pathExt (joinPath i tag.name)) = some c)
    (hu : c.unmarshal data v = none) :
    loadDirInputs reg fs tag ftype (i :: rest) v =
      (some ("failed to unmarshal " ++ joinPath i tag.name), v) := by
  have h1 : loadDirInput reg fs i tag ftype v =
      .error ("failed to unmarshal " ++ joinPath i tag.name) := by
    rw [loadDirInput_nonexplode reg fs i tag ftype v hne]
    exact loadFile_decode_error reg fs _ ftype v c data hstr hbytes hf hreg hu
  simp only [loadDirInputs, h1]

/-- C9 witness -/
theorem load_decode_failure_witness_C9 :
    loadDirInputs failReg [("A/input.json", "oops")] ⟨"input.json", []⟩ .tstructured ["A"]
        (.vstructured 7) = (some "failed to unmarshal A/input.json", .vstructured 7) :=
  load_decode_failure_keeps_value_C9 failReg [("A/input.json", "oops")] "A"
    ⟨"input.json", []⟩ .tstructured (.vstructured 7) failCodec "oops" [] (by rfl)
    (by decide) (by decide) (by rfl) (by rfl) (by rfl)

/-! ## Claim C10: explode save does not confine keys to the directory -/

/-- C10: saving an explode map entry whose key contains dotdot segments
writes through join(dir, key) with no containment check: the key
dotdot-slash-evil.txt makes Save write the file evil.txt, which is not
below the golden directory passed to it. -/
theorem save_explode_escapes_dir_C10 :
    saveDirField noCodecs [] "golden" ⟨"*.txt", ["explode"]⟩ (.tmap .tstr)
        (.vmap [("../evil.txt", .vstr "pwned")]) =
      ([("evil.txt", "pwned")], [.write "evil.txt" "pwned"], none) ∧
    underDir "golden" "evil.txt" = false :=
  ⟨by rfl, by rfl⟩
